import Mathlib

/-!
Verification of the go-outbox transactional outbox relay.

This file gives a shallow embedding of the core of the repository:
the outbox storage operations of `outbox/storage.go` (InsertMessage,
FetchPendingMessages, MarkMessageSent, IncrementAttempt, MarkMessageDead),
the NATS publisher (`Publish`), and the relay loop (`NewRelay`, `Start`,
`processMessages`, `ShutDown`), together with theorems settling the
claims about them.

Modelling conventions:
- UUIDs are 128-bit values, modelled as `Nat`; `uuid.Nil` is `0` and calls
  of `uuid.New()` are modelled by explicitly passed fresh values.
- Timestamps (`TIMESTAMPTZ`, `time.Time`) are modelled as `Nat`; the value
  of `NOW()` at an operation is an explicit `now` argument.
- Byte slices (`BYTEA`, `[]byte`) are `List Nat`.
- The outbox table is a `List StorageRecord` (its order stands for the
  physical row order, which Postgres does not specify).
- Failures of broker or database calls that the Go code only logs are
  modelled by explicit boolean outcomes passed to the relay functions.
-/

namespace GoOutbox

/-- Status constant of storage.go: a record not yet published. -/
def RecordStatusPending : String := "pending"

/-- Status constant of storage.go: a record published successfully. -/
def RecordStatusSent : String := "sent"

/-- Status constant of storage.go: a record that failed permanently. -/
def RecordStatusDead : String := "dead"

/-- `StorageRecord` of storage.go: one row of the outbox table. -/
structure StorageRecord where
  id : Nat
  eventType : String
  aggregateType : String
  aggregateID : String
  data : List Nat
  createdAt : Nat
  sentAt : Option Nat
  status : String
  attempts : Int
  topic : String
deriving DecidableEq

/-! ### Text ordering

Postgres compares `TEXT` with its collation; we model it as the
lexicographic order on the code points (the `C` collation).  We use a
structurally recursive comparison so that the kernel can evaluate it on
concrete inputs. -/

/-- Lexicographic strict order on char lists, by code point. -/
def charsLt : List Char → List Char → Bool
  | [], [] => false
  | [], _ :: _ => true
  | _ :: _, [] => false
  | a :: as, b :: bs =>
    if a.toNat < b.toNat then true
    else if b.toNat < a.toNat then false
    else charsLt as bs

/-- Strict text order used by the ORDER BY clauses. -/
def strLt (a b : String) : Bool := charsLt a.data b.data

theorem charEqOfToNat {a b : Char} (h : a.toNat = b.toNat) : a = b :=
  Char.eq_of_val_eq (UInt32.ext h)

theorem charsLt_irrefl : ∀ l : List Char, charsLt l l = false := by
  intro l
  induction l with
  | nil => rfl
  | cons a as ih => simp [charsLt, ih]

theorem charsLt_asymm_eq : ∀ l1 l2 : List Char,
    charsLt l1 l2 = false → charsLt l2 l1 = false → l1 = l2 := by
  intro l1
  induction l1 with
  | nil =>
    intro l2 h1 _
    cases l2 with
    | nil => rfl
    | cons b bs => simp [charsLt] at h1
  | cons a as ih =>
    intro l2 h1 h2
    cases l2 with
    | nil => simp [charsLt] at h2
    | cons b bs =>
      by_cases hab : a.toNat < b.toNat
      · simp [charsLt, hab] at h1
      · by_cases hba : b.toNat < a.toNat
        · simp [charsLt, hba] at h2
        · have hab2 : a = b := charEqOfToNat (by omega)
          subst hab2
          simp only [charsLt, if_neg hab, if_neg hba] at h1 h2
          rw [ih bs h1 h2]

theorem charsLt_trans : ∀ l1 l2 l3 : List Char,
    charsLt l1 l2 = true → charsLt l2 l3 = true → charsLt l1 l3 = true := by
  intro l1
  induction l1 with
  | nil =>
    intro l2 l3 h1 h2
    cases l2 with
    | nil => simp [charsLt] at h1
    | cons b bs =>
      cases l3 with
      | nil => simp [charsLt] at h2
      | cons c cs => simp [charsLt]
  | cons a as ih =>
    intro l2 l3 h1 h2
    cases l2 with
    | nil => simp [charsLt] at h1
    | cons b bs =>
      cases l3 with
      | nil => simp [charsLt] at h2
      | cons c cs =>
        simp only [charsLt] at h1 h2 ⊢
        by_cases hab : a.toNat < b.toNat
        · by_cases hbc : b.toNat < c.toNat
          · simp [if_pos (by omega : a.toNat < c.toNat)]
          · by_cases hcb : c.toNat < b.toNat
            · simp [hbc, hcb] at h2
            · have hbc2 : b = c := charEqOfToNat (by omega)
              subst hbc2
              simp [if_pos hab]
        · by_cases hba : b.toNat < a.toNat
          · simp [hab, hba] at h1
          · have hab2 : a = b := charEqOfToNat (by omega)
            subst hab2
            simp only [if_neg hab, if_neg hba] at h1
            by_cases hac : a.toNat < c.toNat
            · simp [if_pos hac]
            · by_cases hca : c.toNat < a.toNat
              · simp [hac, hca] at h2
              · simp only [if_neg hac, if_neg hca] at h2 ⊢
                exact ih bs cs h1 h2

theorem strLt_irrefl (a : String) : strLt a a = false := charsLt_irrefl a.data

theorem strLt_asymm_eq {a b : String} (h1 : strLt a b = false) (h2 : strLt b a = false) :
    a = b := by
  have h := charsLt_asymm_eq a.data b.data h1 h2
  cases a
  cases b
  simp_all

theorem strLt_trans {a b c : String} (h1 : strLt a b = true) (h2 : strLt b c = true) :
    strLt a c = true :=
  charsLt_trans a.data b.data c.data h1 h2

/-! ### InsertMessage (storage.go)

The INSERT statement of `InsertMessage` names the columns

  (id, event_type, aggregate_type, aggregate_id, data, topic, created_at, status, attempts)

but supplies the values

  ($1, $2, $3, $4, $5, NOW(), $6, $7, 0)

with arguments `uuid.New(), msg.EventType, msg.AggregateType,
msg.AggregateID, msg.Data, msg.Topic, RecordStatusPending`.  The mapping of
values to columns is positional, so we model the statement by the row it
builds, cell by cell, with an explicit SQL value type per cell. -/

/-- An SQL literal sent to the database, tagged with its type. -/
inductive SqlVal where
  | uuidV (u : Nat)
  | strV (s : String)
  | bytesV (b : List Nat)
  | timeV (t : Nat)
  | intV (i : Int)
deriving DecidableEq

/-- The row an execution of the INSERT of `InsertMessage` would write, one
field per column in the order of the statement's column list. -/
structure InsertedOutboxRow where
  id : SqlVal
  event_type : SqlVal
  aggregate_type : SqlVal
  aggregate_id : SqlVal
  data : SqlVal
  topic : SqlVal
  created_at : SqlVal
  status : SqlVal
  attempts : SqlVal
deriving DecidableEq

/-- `InsertMessage` of storage.go.  The Go code first replaces a nil message
id by `uuid.New()` (modelled by `freshIdForNil`), then executes the INSERT,
passing a second `uuid.New()` (modelled by `freshIdArg`) as `$1` — the
message id is not among the arguments.  The values land in the columns
positionally: the 6th value `NOW()` in `topic`, the 7th value `$6 =
msg.Topic` in `created_at`. -/
def insertMessage (freshIdForNil freshIdArg : Nat) (now : Nat) (msg0 : StorageRecord) :
    InsertedOutboxRow :=
  let msg := if msg0.id = 0 then { msg0 with id := freshIdForNil } else msg0
  { id := SqlVal.uuidV freshIdArg
    event_type := SqlVal.strV msg.eventType
    aggregate_type := SqlVal.strV msg.aggregateType
    aggregate_id := SqlVal.strV msg.aggregateID
    data := SqlVal.bytesV msg.data
    topic := SqlVal.timeV now
    created_at := SqlVal.strV msg.topic
    status := SqlVal.strV RecordStatusPending
    attempts := SqlVal.intV 0 }

/-- Does a cell hold a TEXT value? -/
def isTextVal : SqlVal → Bool
  | SqlVal.strV _ => true
  | _ => false

/-- Does a cell hold a TIMESTAMPTZ value? -/
def isTimeVal : SqlVal → Bool
  | SqlVal.timeV _ => true
  | _ => false

/-- Does a cell hold a UUID value? -/
def isUuidVal : SqlVal → Bool
  | SqlVal.uuidV _ => true
  | _ => false

/-- Does a cell hold a BYTEA value? -/
def isBytesVal : SqlVal → Bool
  | SqlVal.bytesV _ => true
  | _ => false

/-- Does a cell hold an INT value? -/
def isIntVal : SqlVal → Bool
  | SqlVal.intV _ => true
  | _ => false

/-- Column types of the outbox table as created by `InitOutboxTable`:
id UUID, event_type TEXT, aggregate_type TEXT, aggregate_id TEXT,
data BYTEA, created_at TIMESTAMPTZ, status TEXT, attempts INT,
topic TEXT.  Postgres rejects an INSERT whose values do not fit. -/
def rowMatchesSchema (row : InsertedOutboxRow) : Bool :=
  isUuidVal row.id && isTextVal row.event_type && isTextVal row.aggregate_type &&
    isTextVal row.aggregate_id && isBytesVal row.data && isTimeVal row.created_at &&
    isTextVal row.status && isIntVal row.attempts && isTextVal row.topic

/-! ### Status transitions (storage.go) -/

/-- The error kind of the storage operations that is decided by the row
count: `MarkMessageSent` returns `errors.New("no rows updated")` when
`RowsAffected` is zero. -/
inductive StoreErr where
  | noRowsUpdated
deriving DecidableEq

/-- `MarkMessageSent` of storage.go:
`UPDATE outbox SET status = 'sent', sent_at = NOW() WHERE id = $2`.
The WHERE clause matches on the id only — there is no `status = 'pending'`
guard — and the operation errors exactly when zero rows were affected. -/
def markMessageSent (now : Nat) (msgId : Nat) (tbl : List StorageRecord) :
    List StorageRecord × Option StoreErr :=
  (tbl.map fun r =>
      if r.id = msgId then { r with status := RecordStatusSent, sentAt := some now } else r,
   if tbl.any fun r => decide (r.id = msgId) then none else some StoreErr.noRowsUpdated)

/-- `IncrementAttempt` of storage.go:
`UPDATE outbox SET attempts = attempts + 1 WHERE id = $1`.
The row count is not inspected. -/
def incrementAttempt (msgId : Nat) (tbl : List StorageRecord) :
    List StorageRecord × Option StoreErr :=
  (tbl.map fun r => if r.id = msgId then { r with attempts := r.attempts + 1 } else r, none)

/-- `MarkMessageDead` of storage.go:
`UPDATE outbox SET status = 'dead', sent_at = NOW() WHERE id = $2`.
Again no status guard, and — unlike `MarkMessageSent` — the affected row
count is never checked, so the operation never reports a missing row. -/
def markMessageDead (now : Nat) (msgId : Nat) (tbl : List StorageRecord) :
    List StorageRecord × Option StoreErr :=
  (tbl.map fun r =>
      if r.id = msgId then { r with status := RecordStatusDead, sentAt := some now } else r,
   none)

/-- The table-level effect of an INSERT that succeeds: the new row is
appended and every existing row is untouched.  (Which row the broken
INSERT of `InsertMessage` would write is settled separately; at the table
level an INSERT never modifies existing rows.) -/
def insertMessageTable (row : StorageRecord) (tbl : List StorageRecord) :
    List StorageRecord :=
  tbl ++ [row]

/-! ### FetchPendingMessages (storage.go)

The query is

  WITH next_events AS (
      SELECT DISTINCT ON (aggregate_type, aggregate_id) ...
      FROM outbox WHERE status = 'pending'
      ORDER BY aggregate_type, aggregate_id, created_at ASC)
  SELECT * FROM next_events ORDER BY created_at ASC LIMIT $2

Note the inner ORDER BY has no `id` column: among rows of one aggregate
that tie on `created_at`, which row DISTINCT ON keeps is not determined by
the query.  We model the unspecified physical row order by the order of
the input list, sort with a deterministic insertion sort, and keep the
first row of each `(aggregate_type, aggregate_id)` key. -/

/-- The DISTINCT ON key of the fetch query. -/
def aggKey (r : StorageRecord) : String × String := (r.aggregateType, r.aggregateID)

/-- The inner `ORDER BY aggregate_type, aggregate_id, created_at ASC`,
as a lexicographic order relation. -/
def keyLe (a b : StorageRecord) : Prop :=
  strLt a.aggregateType b.aggregateType = true ∨
    (a.aggregateType = b.aggregateType ∧
      (strLt a.aggregateID b.aggregateID = true ∨
        (a.aggregateID = b.aggregateID ∧ a.createdAt ≤ b.createdAt)))

instance : DecidableRel keyLe := fun a b => by unfold keyLe; infer_instance

instance : IsTotal StorageRecord keyLe where
  total a b := by
    by_cases h1 : strLt a.aggregateType b.aggregateType = true
    · exact Or.inl (Or.inl h1)
    · by_cases h2 : strLt b.aggregateType a.aggregateType = true
      · exact Or.inr (Or.inl h2)
      · have hat : a.aggregateType = b.aggregateType :=
          strLt_asymm_eq (by simpa using h1) (by simpa using h2)
        by_cases h3 : strLt a.aggregateID b.aggregateID = true
        · exact Or.inl (Or.inr ⟨hat, Or.inl h3⟩)
        · by_cases h4 : strLt b.aggregateID a.aggregateID = true
          · exact Or.inr (Or.inr ⟨hat.symm, Or.inl h4⟩)
          · have haid : a.aggregateID = b.aggregateID :=
              strLt_asymm_eq (by simpa using h3) (by simpa using h4)
            rcases Nat.le_total a.createdAt b.createdAt with h | h
            · exact Or.inl (Or.inr ⟨hat, Or.inr ⟨haid, h⟩⟩)
            · exact Or.inr (Or.inr ⟨hat.symm, Or.inr ⟨haid.symm, h⟩⟩)

instance : IsTrans StorageRecord keyLe where
  trans a b c hab hbc := by
    rcases hab with h1 | ⟨e1, h1⟩
    · rcases hbc with h2 | ⟨e2, _⟩
      · exact Or.inl (strLt_trans h1 h2)
      · exact Or.inl (by rw [← e2]; exact h1)
    · rcases hbc with h2 | ⟨e2, h2⟩
      · exact Or.inl (by rw [e1]; exact h2)
      · refine Or.inr ⟨e1.trans e2, ?_⟩
        rcases h1 with h1 | ⟨f1, h1⟩
        · rcases h2 with h2 | ⟨f2, _⟩
          · exact Or.inl (strLt_trans h1 h2)
          · exact Or.inl (by rw [← f2]; exact h1)
        · rcases h2 with h2 | ⟨f2, h2⟩
          · exact Or.inl (by rw [f1]; exact h2)
          · exact Or.inr ⟨f1.trans f2, Nat.le_trans h1 h2⟩

/-- The outer `ORDER BY created_at ASC`. -/
def createdLe (a b : StorageRecord) : Prop := a.createdAt ≤ b.createdAt

instance : DecidableRel createdLe := fun a b => Nat.decLe a.createdAt b.createdAt

instance : IsTotal StorageRecord createdLe := ⟨fun a b => Nat.le_total a.createdAt b.createdAt⟩

instance : IsTrans StorageRecord createdLe := ⟨fun _ _ _ => Nat.le_trans⟩

/-- `SELECT DISTINCT ON (aggregate_type, aggregate_id)` applied to the
ordered row stream: keep the first row of each key. -/
def distinctOnAux (seen : List (String × String)) : List StorageRecord → List StorageRecord
  | [] => []
  | r :: rest =>
    if aggKey r ∈ seen then distinctOnAux seen rest
    else r :: distinctOnAux (aggKey r :: seen) rest

/-- DISTINCT ON the aggregate key, keeping the first row per key. -/
def distinctOnKey (l : List StorageRecord) : List StorageRecord := distinctOnAux [] l

/-- `FetchPendingMessages` of storage.go: filter to `status = 'pending'`,
order by `(aggregate_type, aggregate_id, created_at)`, keep one row per
aggregate key, order the kept rows by `created_at`, return the first
`batchSize`. -/
def fetchPendingMessages (tbl : List StorageRecord) (batchSize : Int) : List StorageRecord :=
  let pend := tbl.filter fun r => decide (r.status = RecordStatusPending)
  let next_events := distinctOnKey (List.insertionSort keyLe pend)
  (List.insertionSort createdLe next_events).take batchSize.toNat

/-! ### Publisher (publisher.go) -/

/-- A NATS message as `Publish` constructs it: `Subject`, `Data`, `Header`. -/
structure BrokerMsg where
  subject : String
  data : List Nat
  headers : List (String × String)
deriving DecidableEq

/-- The result of `Publish`: success, `ErrMissingTopic`
(`nats.ErrBadSubject`), or the error from `conn.PublishMsg`. -/
inductive PublishResult where
  | okRes
  | missingTopicErr
  | brokerErr
deriving DecidableEq

/-- `Publish` of the NATS publisher: an empty topic is refused with
`ErrMissingTopic` before any broker call; otherwise exactly one message is
handed to `PublishMsg` with subject `msg.Topic`, payload `msg.Data`, and
headers `event-type`, `aggregate-type`, `aggregate-id`.  `brokerOk` is the
outcome of the broker call; the second component lists the messages handed
to the broker. -/
def natsPublish (brokerOk : Bool) (msg : StorageRecord) :
    PublishResult × List BrokerMsg :=
  if msg.topic = "" then (PublishResult.missingTopicErr, [])
  else
    ((if brokerOk then PublishResult.okRes else PublishResult.brokerErr),
     [{ subject := msg.topic, data := msg.data,
        headers := [("event-type", msg.eventType), ("aggregate-type", msg.aggregateType),
                    ("aggregate-id", msg.aggregateID)] }])

/-! ### Relay (relay.go) -/

/-- `RelayConfig`: poll interval (a `time.Duration`, nanoseconds), batch
size, and the attempt ceiling. -/
structure RelayConfig where
  pollInterval : Int
  batchSize : Int
  maxAttempts : Int
deriving DecidableEq

/-- The relay state the claims need: its configuration and whether its
`done` channel has been closed. -/
structure Relay where
  cfg : RelayConfig
  doneClosed : Bool
deriving DecidableEq

/-- `NewRelay`: stores the configuration unchecked and allocates an open
`done` channel. -/
def newRelay (cfg : RelayConfig) : Relay := { cfg := cfg, doneClosed := false }

/-- The result of a Go call that may panic. -/
inductive GoCall (α : Type) where
  | okCall (a : α)
  | panicked
deriving DecidableEq

/-- `ShutDown` of relay.go executes `close(r.done)` unconditionally; in Go,
closing an already-closed channel panics. -/
def shutDown (r : Relay) : GoCall Relay :=
  if r.doneClosed then GoCall.panicked else GoCall.okCall { r with doneClosed := true }

/-- `time.NewTicker(d)` panics when `d <= 0`
("non-positive interval for NewTicker"). -/
def newTickerPanics (d : Int) : Bool := decide (d ≤ 0)

/-- `Start` of relay.go constructs its ticker from `r.cfg.PollInterval`
before entering the loop, so it panics immediately exactly when the
configured interval is not positive. -/
def startPanicsImmediately (r : Relay) : Bool := newTickerPanics r.cfg.pollInterval

/-- The relay configuration defaults set in config.go:
`relay.poll_interval = "1000ms"`, `relay.batch_size = 100`; no default is
set for `relay.max_attempts`, so it unmarshals to zero. -/
def defaultRelayConfig : RelayConfig :=
  { pollInterval := 1000000000, batchSize := 100, maxAttempts := 0 }

/-- The outcomes of the fallible calls one record can trigger during one
tick: whether the leader fetched it this tick, whether `Publish` succeeded,
and whether `IncrementAttempt`, `MarkMessageSent` and `MarkMessageDead`
succeeded at the database. -/
structure TickOutcome where
  fetched : Bool
  pubOk : Bool
  incOk : Bool
  sentOk : Bool
  deadOk : Bool
deriving DecidableEq

/-- The calls `processMessages` makes against the storage and the
publisher, in order. -/
inductive RelayCall where
  | publishCall (msgId : Nat)
  | markSentCall (msgId : Nat)
  | incrementAttemptCall (msgId : Nat)
  | markDeadCall (msgId : Nat)
deriving DecidableEq

/-- The message loop of `processMessages` (relay.go), transcribed: for the
`i`-th record, if `msg.Attempts >= cfg.MaxAttempts` it marks the record
dead (a failure of that call is only logged) and continues; otherwise it
publishes; on publish failure it increments the attempt count (a failure
of the increment is only logged) and continues; on publish success it
marks the record sent (a failure is only logged) and continues.  The
result is the sequence of storage/publisher calls. -/
def processMessagesFrom (cfg : RelayConfig) (env : Nat → TickOutcome) :
    Nat → List StorageRecord → List RelayCall
  | _, [] => []
  | i, msg :: rest =>
    if msg.attempts ≥ cfg.maxAttempts then
      RelayCall.markDeadCall msg.id :: processMessagesFrom cfg env (i + 1) rest
    else if (env i).pubOk then
      RelayCall.publishCall msg.id :: RelayCall.markSentCall msg.id ::
        processMessagesFrom cfg env (i + 1) rest
    else
      RelayCall.publishCall msg.id :: RelayCall.incrementAttemptCall msg.id ::
        processMessagesFrom cfg env (i + 1) rest

/-- Modelled from the spec: the calls the spec prescribes for one record of
a batch ("If attempts >= max_attempts: MarkDead(id) ... Else
Publish(record): Error -> IncrementAttempt(id) ... Success ->
MarkSent(id)"). -/
def specRecordCalls (maxAttempts : Int) (pubOk : Bool) (msg : StorageRecord) :
    List RelayCall :=
  if msg.attempts ≥ maxAttempts then [RelayCall.markDeadCall msg.id]
  else if pubOk then [RelayCall.publishCall msg.id, RelayCall.markSentCall msg.id]
  else [RelayCall.publishCall msg.id, RelayCall.incrementAttemptCall msg.id]

/-- Modelled from the spec: a batch is the concatenation of each record's
calls, every record processed, in order. -/
def specBatchCalls (maxAttempts : Int) (env : Nat → TickOutcome) :
    Nat → List StorageRecord → List RelayCall
  | _, [] => []
  | i, msg :: rest =>
    specRecordCalls maxAttempts (env i).pubOk msg ++ specBatchCalls maxAttempts env (i + 1) rest

/-- The per-record state the bounded-retry claim tracks: the record's
status and attempt counter. -/
structure RecView where
  status : String
  attempts : Int
deriving DecidableEq

/-- The effect of one relay tick on one record, together with how many
times the record was handed to `Publish` in that tick.  The record takes
part only when it was fetched, and the fetch query returns only rows with
`status = 'pending'`.  A failed database update leaves the row unchanged. -/
def tickRecord (maxAttempts : Int) (s : RecView) (o : TickOutcome) : RecView × Nat :=
  if o.fetched = false then (s, 0)
  else if s.status ≠ RecordStatusPending then (s, 0)
  else if s.attempts ≥ maxAttempts then
    ((if o.deadOk then { s with status := RecordStatusDead } else s), 0)
  else if o.pubOk then
    ((if o.sentOk then { s with status := RecordStatusSent } else s), 1)
  else
    ((if o.incOk then { s with attempts := s.attempts + 1 } else s), 1)

/-- A sequence of relay ticks acting on one record: the final state and
the total number of `Publish` calls on the record. -/
def runRelay (maxAttempts : Int) : RecView → List TickOutcome → RecView × Nat
  | s, [] => (s, 0)
  | s, o :: rest =>
    ((runRelay maxAttempts (tickRecord maxAttempts s o).1 rest).1,
     (tickRecord maxAttempts s o).2 + (runRelay maxAttempts (tickRecord maxAttempts s o).1 rest).2)

/-! ### Lemmas about the fetch query -/

theorem keyLe_createdAt {a b : StorageRecord} (h : keyLe a b) (hk : aggKey a = aggKey b) :
    a.createdAt ≤ b.createdAt := by
  have h1 : a.aggregateType = b.aggregateType := congrArg Prod.fst hk
  have h2 : a.aggregateID = b.aggregateID := congrArg Prod.snd hk
  rcases h with h | ⟨_, h | ⟨_, h⟩⟩
  · rw [h1, strLt_irrefl] at h
    exact absurd h (by simp)
  · rw [h2, strLt_irrefl] at h
    exact absurd h (by simp)
  · exact h

theorem distinctOnAux_notin_seen :
    ∀ (seen : List (String × String)) (l : List StorageRecord) (r : StorageRecord),
      r ∈ distinctOnAux seen l → aggKey r ∉ seen := by
  intro seen l
  induction l generalizing seen with
  | nil => intro r hr; simp [distinctOnAux] at hr
  | cons x rest ih =>
    intro r hr
    by_cases hseen : aggKey x ∈ seen
    · rw [distinctOnAux, if_pos hseen] at hr
      exact ih seen r hr
    · rw [distinctOnAux, if_neg hseen] at hr
      rcases List.mem_cons.mp hr with rfl | hr2
      · exact hseen
      · have h := ih (aggKey x :: seen) r hr2
        intro hmem
        exact h (List.mem_cons_of_mem _ hmem)

theorem distinctOnAux_subset :
    ∀ (seen : List (String × String)) (l : List StorageRecord) (r : StorageRecord),
      r ∈ distinctOnAux seen l → r ∈ l := by
  intro seen l
  induction l generalizing seen with
  | nil => intro r hr; simp [distinctOnAux] at hr
  | cons x rest ih =>
    intro r hr
    by_cases hseen : aggKey x ∈ seen
    · rw [distinctOnAux, if_pos hseen] at hr
      exact List.mem_cons_of_mem _ (ih seen r hr)
    · rw [distinctOnAux, if_neg hseen] at hr
      rcases List.mem_cons.mp hr with rfl | hr2
      · exact List.mem_cons_self _ _
      · exact List.mem_cons_of_mem _ (ih (aggKey x :: seen) r hr2)

theorem distinctOnAux_min :
    ∀ (seen : List (String × String)) (l : List StorageRecord),
      List.Pairwise keyLe l →
      ∀ r ∈ distinctOnAux seen l, ∀ r2 ∈ l, aggKey r2 = aggKey r →
        r.createdAt ≤ r2.createdAt := by
  intro seen l
  induction l generalizing seen with
  | nil => intro _ r hr; simp [distinctOnAux] at hr
  | cons x rest ih =>
    intro hp r hr r2 hr2 hk
    rw [List.pairwise_cons] at hp
    obtain ⟨hx, hrest⟩ := hp
    by_cases hseen : aggKey x ∈ seen
    · rw [distinctOnAux, if_pos hseen] at hr
      rcases List.mem_cons.mp hr2 with rfl | hr2b
      · have h := distinctOnAux_notin_seen seen rest r hr
        rw [← hk] at h
        exact absurd hseen h
      · exact ih seen hrest r hr r2 hr2b hk
    · rw [distinctOnAux, if_neg hseen] at hr
      rcases List.mem_cons.mp hr with rfl | hrb
      · rcases List.mem_cons.mp hr2 with rfl | hr2b
        · exact Nat.le_refl _
        · exact keyLe_createdAt (hx r2 hr2b) hk.symm
      · rcases List.mem_cons.mp hr2 with rfl | hr2b
        · have h := distinctOnAux_notin_seen (aggKey r2 :: seen) rest r hrb
          exact absurd (List.mem_cons.mpr (Or.inl hk.symm)) h
        · exact ih (aggKey x :: seen) hrest r hrb r2 hr2b hk

theorem distinctOnAux_pairwise_keys :
    ∀ (seen : List (String × String)) (l : List StorageRecord),
      List.Pairwise (fun x y => aggKey x ≠ aggKey y) (distinctOnAux seen l) := by
  intro seen l
  induction l generalizing seen with
  | nil => simp [distinctOnAux]
  | cons x rest ih =>
    by_cases hseen : aggKey x ∈ seen
    · rw [distinctOnAux, if_pos hseen]
      exact ih seen
    · rw [distinctOnAux, if_neg hseen]
      refine List.pairwise_cons.mpr ⟨?_, ih (aggKey x :: seen)⟩
      intro y hy he
      have h := distinctOnAux_notin_seen (aggKey x :: seen) rest y hy
      exact h (List.mem_cons.mpr (Or.inl he.symm))

theorem distinctOnAux_covers :
    ∀ (seen : List (String × String)) (l : List StorageRecord) (r2 : StorageRecord),
      r2 ∈ l →
      aggKey r2 ∈ seen ∨ ∃ r, r ∈ distinctOnAux seen l ∧ aggKey r = aggKey r2 := by
  intro seen l
  induction l generalizing seen with
  | nil => intro r2 hr2; simp at hr2
  | cons x rest ih =>
    intro r2 hr2
    by_cases hseen : aggKey x ∈ seen
    · rw [distinctOnAux, if_pos hseen]
      rcases List.mem_cons.mp hr2 with rfl | hr2b
      · exact Or.inl hseen
      · exact ih seen r2 hr2b
    · rw [distinctOnAux, if_neg hseen]
      rcases List.mem_cons.mp hr2 with rfl | hr2b
      · exact Or.inr ⟨r2, List.mem_cons_self _ _, rfl⟩
      · rcases ih (aggKey x :: seen) r2 hr2b with h | ⟨r, hr, he⟩
        · rcases List.mem_cons.mp h with he2 | h2
          · exact Or.inr ⟨x, List.mem_cons_self _ _, he2.symm⟩
          · exact Or.inl h2
        · exact Or.inr ⟨r, List.mem_cons_of_mem _ hr, he⟩

theorem symm_ne_aggKey :
    Symmetric (fun x y : StorageRecord => aggKey x ≠ aggKey y) :=
  fun _ _ h he => h he.symm

/-! ### Claim C1 -/

/-- C1, corrected.  For every table and batch size, `FetchPendingMessages`
returns at most `batchSize` records, sorted by `created_at` ascending, at
most one per `(aggregate_type, aggregate_id)` pair; every returned record
is a pending record of the table whose `created_at` is minimal among the
pending records of its pair; and when fewer than `batchSize` records come
back, every pair with a pending record is represented.  (The original
claim further required the smallest `id` among `created_at` ties; the
query's inner ORDER BY has no `id` column, so that part fails — see the
counterexample.) -/
theorem C1_fetch_amended (tbl : List StorageRecord) (batchSize : Int) :
    (fetchPendingMessages tbl batchSize).length ≤ batchSize.toNat ∧
    List.Pairwise createdLe (fetchPendingMessages tbl batchSize) ∧
    List.Pairwise (fun x y => aggKey x ≠ aggKey y) (fetchPendingMessages tbl batchSize) ∧
    (∀ r ∈ fetchPendingMessages tbl batchSize,
      r ∈ tbl ∧ r.status = RecordStatusPending ∧
        ∀ r2 ∈ tbl, r2.status = RecordStatusPending → aggKey r2 = aggKey r →
          r.createdAt ≤ r2.createdAt) ∧
    ((fetchPendingMessages tbl batchSize).length < batchSize.toNat →
      ∀ r2 ∈ tbl, r2.status = RecordStatusPending →
        ∃ r ∈ fetchPendingMessages tbl batchSize, aggKey r = aggKey r2) := by
  have hres : fetchPendingMessages tbl batchSize =
      (List.insertionSort createdLe (distinctOnKey (List.insertionSort keyLe
        (tbl.filter fun r => decide (r.status = RecordStatusPending))))).take
        batchSize.toNat := rfl
  rw [hres]
  set pend := tbl.filter fun r => decide (r.status = RecordStatusPending) with hpendDef
  set s1 := List.insertionSort keyLe pend with hs1Def
  set d := distinctOnKey s1 with hdDef
  set s2 := List.insertionSort createdLe d with hs2Def
  have hsorted1 : List.Pairwise keyLe s1 := List.sorted_insertionSort keyLe pend
  have hsorted2 : List.Pairwise createdLe s2 := List.sorted_insertionSort createdLe d
  have hmem2 : ∀ r : StorageRecord, r ∈ s2 ↔ r ∈ d :=
    fun r => (List.perm_insertionSort createdLe d).mem_iff
  have hmem1 : ∀ r : StorageRecord, r ∈ s1 ↔ r ∈ pend :=
    fun r => (List.perm_insertionSort keyLe pend).mem_iff
  refine ⟨?_, ?_, ?_, ?_, ?_⟩
  · rw [List.length_take]
    exact min_le_left _ _
  · exact hsorted2.sublist (List.take_sublist _ _)
  · have hkeys : List.Pairwise (fun x y => aggKey x ≠ aggKey y) d :=
      distinctOnAux_pairwise_keys [] s1
    have := ((List.perm_insertionSort createdLe d).pairwise_iff
      fun h => symm_ne_aggKey h).mpr hkeys
    exact this.sublist (List.take_sublist _ _)
  · intro r hr
    have hrs2 : r ∈ s2 := List.take_subset _ _ hr
    have hrd : r ∈ d := (hmem2 r).mp hrs2
    have hrs1 : r ∈ s1 := distinctOnAux_subset [] s1 r hrd
    have hrp : r ∈ pend := (hmem1 r).mp hrs1
    have hrt := List.mem_filter.mp hrp
    refine ⟨hrt.1, of_decide_eq_true hrt.2, ?_⟩
    intro r2 hr2 hp2 hk
    have hr2p : r2 ∈ pend := List.mem_filter.mpr ⟨hr2, decide_eq_true hp2⟩
    have hr2s1 : r2 ∈ s1 := (hmem1 r2).mpr hr2p
    exact distinctOnAux_min [] s1 hsorted1 r hrd r2 hr2s1 hk
  · intro hlen r2 hr2 hp2
    rw [List.length_take] at hlen
    have hlt : s2.length < batchSize.toNat := by
      rcases Nat.le_total batchSize.toNat s2.length with h | h
      · rw [min_eq_left h] at hlen
        omega
      · rw [min_eq_right h] at hlen
        exact hlen
    have htake : s2.take batchSize.toNat = s2 := List.take_of_length_le (Nat.le_of_lt hlt)
    rw [htake]
    have hr2p : r2 ∈ pend := List.mem_filter.mpr ⟨hr2, decide_eq_true hp2⟩
    have hr2s1 : r2 ∈ s1 := (hmem1 r2).mpr hr2p
    rcases distinctOnAux_covers [] s1 r2 hr2s1 with h | ⟨r, hrd, he⟩
    · simp at h
    · exact ⟨r, (hmem2 r).mpr hrd, he⟩

/-- The table of the C1 counterexample: two pending records of the same
aggregate with equal `created_at` and ids 2 and 1, in an order in which
the fetch keeps id 2. -/
def cexTieLater : StorageRecord :=
  { id := 2, eventType := "UserVerified", aggregateType := "User", aggregateID := "7",
    data := [], createdAt := 5, sentAt := none, status := "pending", attempts := 0,
    topic := "users" }

/-- The tied record with the smaller id, which the original claim says must
be the one returned. -/
def cexTieEarlier : StorageRecord :=
  { id := 1, eventType := "UserCreated", aggregateType := "User", aggregateID := "7",
    data := [], createdAt := 5, sentAt := none, status := "pending", attempts := 0,
    topic := "users" }

/-- C1, counterexample.  On a table holding two pending records of the same
aggregate that tie on `created_at` (ids 2 and 1), the fetch returns the
record with id 2, not the record with the smallest `(created_at, id)`:
the claimed id tie-break does not hold. -/
theorem C1_counterexample :
    fetchPendingMessages [cexTieLater, cexTieEarlier] 10 = [cexTieLater] ∧
    cexTieEarlier ∈ [cexTieLater, cexTieEarlier] ∧
    cexTieEarlier.status = RecordStatusPending ∧
    aggKey cexTieEarlier = aggKey cexTieLater ∧
    cexTieEarlier.createdAt = cexTieLater.createdAt ∧
    cexTieEarlier.id < cexTieLater.id ∧
    cexTieEarlier ∉ fetchPendingMessages [cexTieLater, cexTieEarlier] 10 := by
  decide

/-! ### Claims C2 and C6: InsertMessage -/

/-- C2 is a code bug: for the record with topic "users" (fresh uuids 11 and
12, clock 99), the INSERT of `InsertMessage` does set `status = 'pending'`
and `attempts = 0`, but — because the column list and the VALUES list are
misaligned — it sends `NOW()` into the `topic` column and the record's
topic into `created_at`, and the row does not fit the table's schema, so
Postgres rejects every insert. -/
theorem C2_insert_misaligned :
    insertMessage 11 12 99
        { id := 5, eventType := "UserCreated", aggregateType := "User", aggregateID := "1",
          data := [1, 2], createdAt := 0, sentAt := none, status := "", attempts := 0,
          topic := "users" } =
      { id := SqlVal.uuidV 12, event_type := SqlVal.strV "UserCreated",
        aggregate_type := SqlVal.strV "User", aggregate_id := SqlVal.strV "1",
        data := SqlVal.bytesV [1, 2], topic := SqlVal.timeV 99,
        created_at := SqlVal.strV "users", status := SqlVal.strV "pending",
        attempts := SqlVal.intV 0 } ∧
    rowMatchesSchema (insertMessage 11 12 99
        { id := 5, eventType := "UserCreated", aggregateType := "User", aggregateID := "1",
          data := [1, 2], createdAt := 0, sentAt := none, status := "", attempts := 0,
          topic := "users" }) = false := by
  decide

/-- C6 is a code bug: the caller supplied the non-nil id 5, yet the id
column receives the fresh `uuid.New()` value (modelled 12, distinct from
every existing id), not the caller's id — the `msg.ID` the Go code just
computed is never passed to the statement. -/
theorem C6_caller_id_ignored :
    (insertMessage 11 12 99
        { id := 5, eventType := "UserCreated", aggregateType := "User", aggregateID := "1",
          data := [], createdAt := 0, sentAt := none, status := "", attempts := 0,
          topic := "users" }).id = SqlVal.uuidV 12 ∧
    SqlVal.uuidV 12 ≠ SqlVal.uuidV 5 := by
  decide

/-! ### Claims C3 and C7: status transitions -/

/-- A terminal (dead) record used by the C3 counterexample and witness. -/
def cexDeadRec : StorageRecord :=
  { id := 3, eventType := "UserCreated", aggregateType := "User", aggregateID := "9",
    data := [], createdAt := 4, sentAt := some 6, status := "dead", attempts := 2,
    topic := "users" }

/-- C3, counterexample.  A record whose status is `dead` (terminal) is
transitioned to `sent` and its `sent_at` overwritten by `MarkMessageSent`,
with no error: the UPDATE has no `status = 'pending'` guard. -/
theorem C3_counterexample :
    cexDeadRec.status = RecordStatusDead ∧
    (markMessageSent 9 3 [cexDeadRec]).1 =
      [{ cexDeadRec with status := RecordStatusSent, sentAt := some 9 }] ∧
    (markMessageSent 9 3 [cexDeadRec]).2 = none := by
  decide

/-- C3, corrected.  `InsertMessage` and `IncrementAttempt` indeed never
change the status or `sent_at` of an existing record; but `MarkMessageSent`
and `MarkMessageDead` re-mark a record with the matching id regardless of
its current status — `sent` and `dead` are not terminal under them — while
records with other ids are left unchanged. -/
theorem C3_terminal_amended (now msgId : Nat) (tbl : List StorageRecord)
    (r : StorageRecord) (hmem : r ∈ tbl) (_hterm : r.status ≠ RecordStatusPending) :
    ((incrementAttempt msgId tbl).1.map StorageRecord.status = tbl.map StorageRecord.status ∧
      (incrementAttempt msgId tbl).1.map StorageRecord.sentAt = tbl.map StorageRecord.sentAt) ∧
    (∀ row, r ∈ insertMessageTable row tbl) ∧
    (r.id = msgId →
      { r with status := RecordStatusSent, sentAt := some now } ∈
          (markMessageSent now msgId tbl).1 ∧
        { r with status := RecordStatusDead, sentAt := some now } ∈
          (markMessageDead now msgId tbl).1) ∧
    (r.id ≠ msgId →
      r ∈ (markMessageSent now msgId tbl).1 ∧ r ∈ (markMessageDead now msgId tbl).1) := by
  refine ⟨⟨?_, ?_⟩, ?_, ?_, ?_⟩
  · rw [incrementAttempt, List.map_map]
    apply List.map_congr_left
    intro a _
    by_cases h : a.id = msgId <;> simp [h]
  · rw [incrementAttempt, List.map_map]
    apply List.map_congr_left
    intro a _
    by_cases h : a.id = msgId <;> simp [h]
  · intro row
    exact List.mem_append.mpr (Or.inl hmem)
  · intro hid
    constructor
    · exact List.mem_map.mpr ⟨r, hmem, by rw [if_pos hid]⟩
    · exact List.mem_map.mpr ⟨r, hmem, by rw [if_pos hid]⟩
  · intro hid
    constructor
    · exact List.mem_map.mpr ⟨r, hmem, by rw [if_neg hid]⟩
    · exact List.mem_map.mpr ⟨r, hmem, by rw [if_neg hid]⟩

/-- C3, witness: the amended theorem applied to the one-row table holding
the dead record, for the update targeting its id. -/
theorem C3_terminal_amended_witness :
    ((incrementAttempt 3 [cexDeadRec]).1.map StorageRecord.status =
        [cexDeadRec].map StorageRecord.status ∧
      (incrementAttempt 3 [cexDeadRec]).1.map StorageRecord.sentAt =
        [cexDeadRec].map StorageRecord.sentAt) ∧
    (∀ row, cexDeadRec ∈ insertMessageTable row [cexDeadRec]) ∧
    (cexDeadRec.id = 3 →
      { cexDeadRec with status := RecordStatusSent, sentAt := some 9 } ∈
          (markMessageSent 9 3 [cexDeadRec]).1 ∧
        { cexDeadRec with status := RecordStatusDead, sentAt := some 9 } ∈
          (markMessageDead 9 3 [cexDeadRec]).1) ∧
    (cexDeadRec.id ≠ 3 →
      cexDeadRec ∈ (markMessageSent 9 3 [cexDeadRec]).1 ∧
        cexDeadRec ∈ (markMessageDead 9 3 [cexDeadRec]).1) :=
  C3_terminal_amended 9 3 [cexDeadRec] cexDeadRec (by decide) (by decide)

/-- A pending record with id 2: the C7 counterexample updates id 1, which
matches no row. -/
def cexLoneRec : StorageRecord :=
  { id := 2, eventType := "UserCreated", aggregateType := "User", aggregateID := "1",
    data := [], createdAt := 0, sentAt := none, status := "pending", attempts := 0,
    topic := "users" }

/-- C7, counterexample.  `MarkMessageDead` on an id that matches no row
updates zero rows yet returns no error: it never inspects the affected row
count, so it does not return a not-found error when zero rows were
updated. -/
theorem C7_counterexample :
    (∀ r ∈ [cexLoneRec], r.id ≠ 1) ∧
    (markMessageDead 5 1 [cexLoneRec]).1 = [cexLoneRec] ∧
    (markMessageDead 5 1 [cexLoneRec]).2 = none := by
  decide

/-- C7, corrected.  `MarkMessageSent` returns its row-count error exactly
when no row carries the given id (therefore also on a terminal record it
reports success, since the update has no pending guard), and on a matching
record it sets `status = 'sent'` and `sent_at = now()`; `MarkMessageDead`
never returns a row-count error, even when zero rows were updated. -/
theorem C7_mark_errors_amended (now msgId : Nat) (tbl : List StorageRecord) :
    ((markMessageSent now msgId tbl).2 = some StoreErr.noRowsUpdated ↔
      ∀ r ∈ tbl, r.id ≠ msgId) ∧
    (markMessageDead now msgId tbl).2 = none ∧
    (∀ r ∈ tbl, r.id = msgId →
      { r with status := RecordStatusSent, sentAt := some now } ∈
        (markMessageSent now msgId tbl).1) := by
  refine ⟨?_, rfl, ?_⟩
  · by_cases h : (tbl.any fun r => decide (r.id = msgId)) = true
    · rw [markMessageSent]
      rw [if_pos h]
      constructor
      · intro hno
        exact absurd hno (by simp)
      · intro hall
        obtain ⟨r, hr, hid⟩ := List.any_eq_true.mp h
        exact absurd (of_decide_eq_true hid) (hall r hr)
    · rw [markMessageSent]
      rw [if_neg h]
      constructor
      · intro _ r hr hid
        exact h (List.any_eq_true.mpr ⟨r, hr, decide_eq_true hid⟩)
      · intro _
        rfl
  · intro r hr hid
    exact List.mem_map.mpr ⟨r, hr, by rw [if_pos hid]⟩

/-! ### Claim C8: the publisher -/

/-- C8, confirmed.  `Publish` returns `ErrMissingTopic` with no broker
contact exactly when the topic is empty; otherwise it hands the broker
exactly one message whose subject is the topic, whose payload is the data
verbatim, and whose headers carry event-type, aggregate-type and
aggregate-id — whatever the broker outcome. -/
theorem C8_publish_contract (brokerOk : Bool) (msg : StorageRecord) :
    ((natsPublish brokerOk msg).1 = PublishResult.missingTopicErr ∧
        (natsPublish brokerOk msg).2 = [] ↔ msg.topic = "") ∧
    ((natsPublish brokerOk msg).2 =
        [{ subject := msg.topic, data := msg.data,
           headers := [("event-type", msg.eventType), ("aggregate-type", msg.aggregateType),
                       ("aggregate-id", msg.aggregateID)] }] ↔ msg.topic ≠ "") := by
  by_cases h : msg.topic = "" <;> cases brokerOk <;> simp [natsPublish, h]

/-! ### Claim C4: one batch of processMessages -/

/-- C4, confirmed.  The transcription of the relay's batch loop equals the
per-record policy the spec describes, concatenated over the batch in
order: a record at the attempt ceiling is only marked dead (no publish);
otherwise it is published, a failed publish is followed by an attempt
increment, a successful one by mark-sent; and the trace does not depend on
the outcomes of the storage calls (their failures are only logged), so no
error on any record aborts the remainder of the batch. -/
theorem C4_batch_loop (cfg : RelayConfig) (env env2 : Nat → TickOutcome)
    (msgs : List StorageRecord) (i : Nat)
    (hpub : ∀ j, (env j).pubOk = (env2 j).pubOk) :
    processMessagesFrom cfg env i msgs = specBatchCalls cfg.maxAttempts env i msgs ∧
    processMessagesFrom cfg env i msgs = processMessagesFrom cfg env2 i msgs := by
  induction msgs generalizing i with
  | nil => exact ⟨rfl, rfl⟩
  | cons m rest ih =>
    obtain ⟨ih1, ih2⟩ := ih (i + 1)
    by_cases hmax : m.attempts ≥ cfg.maxAttempts
    · constructor
      · simp [processMessagesFrom, specBatchCalls, specRecordCalls, hmax, ih1]
      · simp [processMessagesFrom, hmax, ih2]
    · by_cases hp : (env i).pubOk = true
      · have hp2 : (env2 i).pubOk = true := by rw [← hpub i]; exact hp
        constructor
        · simp [processMessagesFrom, specBatchCalls, specRecordCalls, hmax, hp, ih1]
        · simp [processMessagesFrom, hmax, hp, hp2, ih2]
      · have hp2 : ¬(env2 i).pubOk = true := by rw [← hpub i]; exact hp
        constructor
        · simp [processMessagesFrom, specBatchCalls, specRecordCalls, hmax, hp, ih1]
        · simp [processMessagesFrom, hmax, hp, hp2, ih2]

/-- The relay configuration used by concrete relay runs below. -/
def relayCfgW : RelayConfig := { pollInterval := 1000000000, batchSize := 100, maxAttempts := 3 }

/-- A tick environment in which every call succeeds. -/
def envAllOk : Nat → TickOutcome := fun _ => ⟨true, true, true, true, true⟩

/-- A fresh pending record for concrete relay runs. -/
def recW : StorageRecord :=
  { id := 8, eventType := "UserCreated", aggregateType := "User", aggregateID := "2",
    data := [], createdAt := 1, sentAt := none, status := "pending", attempts := 0,
    topic := "users" }

/-- C4, witness: the batch theorem applied to a one-record batch in the
all-succeeding environment. -/
theorem C4_batch_loop_witness :
    processMessagesFrom relayCfgW envAllOk 0 [recW] =
        specBatchCalls relayCfgW.maxAttempts envAllOk 0 [recW] ∧
      processMessagesFrom relayCfgW envAllOk 0 [recW] =
        processMessagesFrom relayCfgW envAllOk 0 [recW] :=
  C4_batch_loop relayCfgW envAllOk envAllOk [recW] 0 fun _ => rfl

/-! ### Claim C5: bounded retries -/

theorem runRelay_pub_bound (maxAttempts : Int) :
    ∀ (ticks : List TickOutcome) (s : RecView),
      (∀ o ∈ ticks, o.incOk = true ∧ o.sentOk = true) →
      (runRelay maxAttempts s ticks).2 ≤
        (if s.status = RecordStatusPending then (maxAttempts - s.attempts).toNat else 0) := by
  intro ticks
  induction ticks with
  | nil =>
    intro s _
    simp [runRelay]
  | cons o rest ih =>
    intro s h
    obtain ⟨hinc, hsent⟩ := h o (List.mem_cons_self _ _)
    have hrest := fun o2 ho2 => h o2 (List.mem_cons_of_mem _ ho2)
    by_cases hf : o.fetched = false
    · have ht : tickRecord maxAttempts s o = (s, 0) := by rw [tickRecord, if_pos hf]
      simp only [runRelay, ht]
      simpa using ih s hrest
    · by_cases hs : s.status = RecordStatusPending
      · by_cases hge : s.attempts ≥ maxAttempts
        · by_cases hd : o.deadOk = true
          · have ht : tickRecord maxAttempts s o =
                ({ s with status := RecordStatusDead }, 0) := by
              rw [tickRecord, if_neg hf, if_neg (by simp [hs]), if_pos hge, if_pos hd]
            have hb := ih { s with status := RecordStatusDead } hrest
            rw [if_neg (by decide : ¬(RecordStatusDead = RecordStatusPending))] at hb
            simp only [runRelay, ht]
            simp only [if_pos hs]
            omega
          · have ht : tickRecord maxAttempts s o = (s, 0) := by
              rw [tickRecord, if_neg hf, if_neg (by simp [hs]), if_pos hge, if_neg hd]
            have hb := ih s hrest
            rw [if_pos hs] at hb
            simp only [runRelay, ht]
            simp only [if_pos hs]
            omega
        · by_cases hp : o.pubOk = true
          · have ht : tickRecord maxAttempts s o =
                ({ s with status := RecordStatusSent }, 1) := by
              rw [tickRecord, if_neg hf, if_neg (by simp [hs]), if_neg hge, if_pos hp,
                if_pos hsent]
            have hb := ih { s with status := RecordStatusSent } hrest
            rw [if_neg (by decide : ¬(RecordStatusSent = RecordStatusPending))] at hb
            simp only [runRelay, ht]
            simp only [if_pos hs]
            omega
          · have ht : tickRecord maxAttempts s o =
                ({ s with attempts := s.attempts + 1 }, 1) := by
              rw [tickRecord, if_neg hf, if_neg (by simp [hs]), if_neg hge, if_neg hp,
                if_pos hinc]
            have hb := ih { s with attempts := s.attempts + 1 } hrest
            rw [if_pos hs] at hb
            simp only [runRelay, ht]
            simp only [if_pos hs]
            simp only [RecView.mk.injEq] at hb ⊢
            omega
      · have ht : tickRecord maxAttempts s o = (s, 0) := by
          rw [tickRecord, if_neg hf, if_pos (by simp [hs])]
        have hb := ih s hrest
        rw [if_neg hs] at hb
        simp only [runRelay, ht]
        simp only [if_neg hs]
        omega

/-- C5, corrected.  Provided every `IncrementAttempt` call after a failed
publish and every `MarkMessageSent` call after a successful one reaches
the database, a record starting pending with zero attempts is handed to
`Publish` at most `max_attempts` times over any sequence of relay ticks.
(Without that proviso the bound fails — see the counterexample, where
failing increments let the relay republish beyond the ceiling.) -/
theorem C5_bounded_retries_amended (maxAttempts : Int) (ticks : List TickOutcome)
    (h : ∀ o ∈ ticks, o.incOk = true ∧ o.sentOk = true) :
    (runRelay maxAttempts { status := RecordStatusPending, attempts := 0 } ticks).2 ≤
      maxAttempts.toNat := by
  have hb := runRelay_pub_bound maxAttempts ticks
    { status := RecordStatusPending, attempts := 0 } h
  rw [if_pos rfl] at hb
  simpa using hb

/-- C5, witness: one tick with a failed publish whose increment succeeds;
the record is published once, within the ceiling of 2. -/
theorem C5_bounded_retries_witness :
    (runRelay 2 { status := RecordStatusPending, attempts := 0 }
        [⟨true, false, true, true, true⟩]).2 ≤ (2 : Int).toNat :=
  C5_bounded_retries_amended 2 [⟨true, false, true, true, true⟩] (by decide)

/-- C5, counterexample.  With `max_attempts = 1`, two ticks in which the
publish fails and the `IncrementAttempt` call errors (only logged by the
relay) leave the record pending with zero attempts after TWO publishes —
more than `max_attempts` — and it is never dead-lettered. -/
theorem C5_counterexample :
    runRelay 1 { status := RecordStatusPending, attempts := 0 }
        [⟨true, false, false, false, false⟩, ⟨true, false, false, false, false⟩] =
      ({ status := RecordStatusPending, attempts := 0 }, 2) := by
  decide

/-! ### Claim C9: ShutDown -/

/-- C9, counterexample.  The first `ShutDown` closes the done channel; a
second `ShutDown` executes `close` on the already-closed channel, which
panics in Go — the claim that a subsequent call completes without
panicking fails. -/
theorem C9_counterexample :
    shutDown (newRelay defaultRelayConfig) =
      GoCall.okCall { cfg := defaultRelayConfig, doneClosed := true } ∧
    shutDown { cfg := defaultRelayConfig, doneClosed := true } = GoCall.panicked := by
  decide

/-- C9, corrected.  `ShutDown` panics exactly when the done channel is
already closed: the first call on a fresh relay completes without panic,
every later call panics (Go `close` on a closed channel). -/
theorem C9_shutdown_amended (r : Relay) :
    (shutDown r = GoCall.panicked ↔ r.doneClosed = true) ∧
    shutDown (newRelay r.cfg) = GoCall.okCall { cfg := r.cfg, doneClosed := true } := by
  constructor
  · by_cases h : r.doneClosed = true <;> simp [shutDown, h]
  · rfl

/-! ### Claim C10: Start and the poll interval -/

/-- C10, confirmed.  `NewRelay` stores the configuration unchecked, `Start`
panics immediately exactly when the configured poll interval is not
positive (the ticker cannot be created), and the configuration default of
1000ms satisfies the implicit precondition. -/
theorem C10_start_poll_interval (cfg : RelayConfig) :
    (newRelay cfg).cfg = cfg ∧
    (startPanicsImmediately (newRelay cfg) = true ↔ cfg.pollInterval ≤ 0) ∧
    startPanicsImmediately (newRelay defaultRelayConfig) = false := by
  refine ⟨rfl, ?_, by decide⟩
  simp [startPanicsImmediately, newRelay, newTickerPanics]

end GoOutbox
